import Mathlib

/-
Shallow embedding of `src/Main.py` of the Victron eOrder price-sync script
(naamons/Victron_eOrder_updater), together with theorems checking the
specification's claims about it.

Modelling conventions:
  * Python dicts for feed entries / variants / products become structures;
    a field accessed with `d.get(k, default)` becomes an `Option` field.
  * Python `float` prices are modelled as `ℚ` (the script only ever feeds
    decimal strings to `float` and compares against the 0.01 tolerance).
  * A Python function that can raise becomes `Option`-valued (`none` = the
    exception escapes).
  * HTTP is modelled by passing the response data explicitly: the paginated
    catalog fetch receives a `server : String → Page` mapping a URL to the
    response it would produce, plus a fuel bound (the Python `while` loop has
    no intrinsic bound); the per-item update call receives the response it
    would get.
-/

attribute [local semireducible] Rat.add Rat.sub Rat.mul Rat.inv Rat.ofScientific

/-- An entry of the eOrder feed: a JSON object with `sku` and `price` fields
(`price` arrives as a string and is parsed with `float`, Main.py line 67). -/
structure PriceEntry where
  sku : String
  price : String
deriving DecidableEq

/-- A Shopify variant as read from the REST catalog.  `sku` and the option
fields are `Option` because the script accesses them with
`variant.get('sku', '')` / `variant.get('optionN', '')` (lines 71, 75-77);
`price` and `id`/`title` are accessed directly with `[]`. -/
structure Variant where
  id : Nat
  sku : Option String
  price : String
  title : String
  option1 : Option String
  option2 : Option String
  option3 : Option String
deriving DecidableEq

/-- A Shopify product: `id`, `title` and its list of variants (lines 69-70, 81-83). -/
structure Product where
  id : Nat
  title : String
  variants : List Variant
deriving DecidableEq

/-- The record appended to `price_updates` in `compare_prices` (lines 80-91). -/
structure PendingUpdate where
  product_id : Nat
  variant_id : Nat
  product_title : String
  variant_title : String
  current_price : ℚ
  new_price : ℚ
  sku : String
  option1 : String
  option2 : String
  option3 : String
deriving DecidableEq

/-- Numeric value of a nonempty all-digit character list, `none` otherwise. -/
def digitsVal (l : List Char) : Option Nat :=
  if l = [] then none
  else if l.all Char.isDigit then
    some (l.foldl (fun n c => 10 * n + (c.toNat - 48)) 0)
  else none

/-- Splits a character list at every `'.'` (accumulator holds the current
segment reversed). -/
def splitDot : List Char → List Char → List (List Char)
  | [], acc => [acc.reverse]
  | '.' :: rest, acc => acc.reverse :: splitDot rest []
  | c :: rest, acc => splitDot rest (c :: acc)

/-- Parsing of a price string into a rational, modelling Python's
`float(...)` as used on the decimal price strings of the feed and the
catalog: an integer part optionally followed by `'.'` and a fractional part.
A string that is not such a decimal numeral yields `none` (in Python,
`float` raises `ValueError` there). -/
def parsePrice (s : String) : Option ℚ :=
  match splitDot s.data [] with
  | [ip] => (digitsVal ip).map (fun n => (n : ℚ))
  | [ip, fp] =>
    match digitsVal ip, digitsVal fp with
    | some i, some f => some ((i : ℚ) + (f : ℚ) / (10 : ℚ) ^ fp.length)
    | _, _ => none
  | _ => none

/-- The dict comprehension
`{item['sku']: float(item['price']) for item in eorder_prices}` (line 67),
threaded through an accumulator: each entry is prepended, so `List.lookup`
(first match) sees the LAST occurrence of a duplicated sku, exactly as a
Python dict overwrites on re-insertion.  `none` models `float` raising on an
unparseable feed price. -/
def buildPriceMapAux (acc : List (String × ℚ)) : List PriceEntry → Option (List (String × ℚ))
  | [] => some acc
  | e :: rest =>
    (parsePrice e.price).bind fun q => buildPriceMapAux ((e.sku, q) :: acc) rest

/-- The `eorder_price_map` dict of `compare_prices` (line 67). -/
def eorder_price_map (feed : List PriceEntry) : Option (List (String × ℚ)) :=
  buildPriceMapAux [] feed

/-- The record literal appended at lines 80-91. -/
def mkUpdate (p : Product) (v : Variant) (current_price new_price : ℚ) : PendingUpdate :=
  { product_id := p.id
    variant_id := v.id
    product_title := p.title
    variant_title := v.title
    current_price := current_price
    new_price := new_price
    sku := v.sku.getD ""
    option1 := v.option1.getD ""
    option2 := v.option2.getD ""
    option3 := v.option3.getD "" }

/-- Body of the inner loop of `compare_prices` (lines 70-91): take the
variant's sku with `variant.get('sku', '')` (no whitespace trimming in the
source), look it up in the price map, and if found parse
`float(variant['price'])` (which may raise, hence `Option`) and emit one
update exactly when `abs(current_price - new_price) > 0.01`. -/
def processVariant (m : List (String × ℚ)) (p : Product) (v : Variant) :
    Option (List PendingUpdate) :=
  match List.lookup (v.sku.getD "") m with
  | none => some []
  | some new_price =>
    match parsePrice v.price with
    | none => none
    | some current_price =>
      if |current_price - new_price| > 1 / 100 then
        some [mkUpdate p v current_price new_price]
      else some []

/-- The inner `for variant in product['variants']` loop of `compare_prices`. -/
def diffVariants (m : List (String × ℚ)) (p : Product) :
    List Variant → Option (List PendingUpdate)
  | [] => some []
  | v :: vs =>
    (processVariant m p v).bind fun us =>
      (diffVariants m p vs).map fun rest => us ++ rest

/-- The outer `for product in shopify_products` loop of `compare_prices`. -/
def diffProducts (m : List (String × ℚ)) :
    List Product → Option (List PendingUpdate)
  | [] => some []
  | p :: ps =>
    (diffVariants m p p.variants).bind fun us =>
      (diffProducts m ps).map fun rest => us ++ rest

/-- `compare_prices(eorder_prices, shopify_products)` (lines 63-92):
builds the sku → price map from the feed, then walks the catalog in
product order, variant order.  `none` models an uncaught `ValueError`
from `float` (there is no try/except inside the function). -/
def compare_prices (feed : List PriceEntry) (catalog : List Product) :
    Option (List PendingUpdate) :=
  (eorder_price_map feed).bind fun m => diffProducts m catalog

/-- One HTTP response of the catalog fetch as far as
`get_shopify_products` inspects it: the status code, the parsed
JSON body's `products` field (`none` models a body that is not JSON or
has no `products` key — either way `data['products']` raises and the
`except` branch is taken), and the optional `Link` response header. -/
structure Page where
  status : Nat
  body : Option (List Product)
  linkHeader : Option String
deriving DecidableEq

/-- Boolean list-prefix test on characters. -/
def charsPrefixOf : List Char → List Char → Bool
  | [], _ => true
  | _ :: _, [] => false
  | a :: as, b :: bs => a == b && charsPrefixOf as bs

/-- Boolean substring test on character lists, modelling Python's
`pat in link` on strings (line 54). -/
def charsInfixOf (pat : List Char) : List Char → Bool
  | [] => charsPrefixOf pat []
  | c :: rest => charsPrefixOf pat (c :: rest) || charsInfixOf pat rest

/-- Python `header.split(', ')` (line 52); the accumulator holds the
current segment reversed. -/
def splitCommaSpace : List Char → List Char → List (List Char)
  | [], acc => [acc.reverse]
  | ',' :: ' ' :: rest, acc => acc.reverse :: splitCommaSpace rest []
  | c :: rest, acc => splitCommaSpace rest (c :: acc)

/-- Python `link.split(';')` (line 55). -/
def splitSemicolon : List Char → List Char → List (List Char)
  | [], acc => [acc.reverse]
  | ';' :: rest, acc => acc.reverse :: splitSemicolon rest []
  | c :: rest, acc => splitSemicolon rest (c :: acc)

/-- Python `url.strip('<>')` (line 55): remove any leading and trailing
`<` / `>` characters. -/
def stripAngles (l : List Char) : List Char :=
  ((l.dropWhile fun c => c == '<' || c == '>').reverse.dropWhile
    fun c => c == '<' || c == '>').reverse

/-- Lines 50-55: `next_page_url` starts as `None`; if a `Link` header is
present it is split on `', '`, and every piece containing `rel="next"`
reassigns `next_page_url` to that piece's part before the first `;`,
stripped of `<`/`>` (so the last matching piece wins). -/
def nextUrl (p : Page) : Option String :=
  match p.linkHeader with
  | none => none
  | some h =>
    (splitCommaSpace h.data []).foldl
      (fun acc link =>
        if charsInfixOf ("rel=" ++ "\"next\"").data link then
          some (String.mk (stripAngles ((splitSemicolon link []).headD [])))
        else acc)
      none

/-- The `while next_page_url:` loop of `get_shopify_products`
(lines 28-59), driven by the `server` response function.  Per iteration:
a non-200 status breaks out returning what was accumulated (lines 38-44);
a body without a usable `products` list raises inside the `try`, which is
caught and also breaks out with what was accumulated (lines 46-47, 57-59);
otherwise the page's products are appended and the loop continues with the
`Link`-header next URL, stopping when there is none.  `fuel` bounds the
number of iterations we unroll; `none` means the bound was hit while the
Python loop would still be running. -/
def fetchLoop (server : String → Page) : Nat → Option String → Option (List Product)
  | _, none => some []
  | 0, some _ => none
  | fuel + 1, some url =>
    let p := server url
    if p.status ≠ 200 then some []
    else
      match p.body with
      | none => some []
      | some prods =>
        (fetchLoop server fuel (nextUrl p)).map fun rest => prods ++ rest

/-- The fixed first-page URL of line 26:
`https://{shop_url}/admin/api/{api_version}/products.json?limit=250`. -/
def firstPageUrl (shop_url api_version : String) : String :=
  "https://" ++ shop_url ++ "/admin/api/" ++ api_version ++ "/products.json?limit=250"

/-- `get_shopify_products(shop_url, access_token, api_version)`
(lines 24-61): run the pagination loop from the fixed first-page URL.
The access token only goes into request headers and does not affect the
control flow modelled here. -/
def get_shopify_products (server : String → Page) (fuel : Nat)
    (shop_url api_version : String) : Option (List Product) :=
  fetchLoop server fuel (some (firstPageUrl shop_url api_version))

/-- The products contributed by a list of visited pages, in page order. -/
def pagesProducts (server : String → Page) (urls : List String) : List Product :=
  urls.flatMap fun u => ((server u).body).getD []

/-- The visited URLs form a complete pagination chain: every page responds
200 with a `products` list, every page but the last advertises the next
page's URL in its `Link` header, and the last page advertises none. -/
def goodChain (server : String → Page) : List String → Prop
  | [] => True
  | [u] => (server u).status = 200 ∧ (server u).body.isSome = true ∧
      nextUrl (server u) = none
  | u :: u2 :: rest => (server u).status = 200 ∧ (server u).body.isSome = true ∧
      nextUrl (server u) = some u2 ∧ goodChain server (u2 :: rest)

/-- From `u` through the URLs of `l`, every page responds 200 with a
`products` list and links to the following URL; the last one links to `b`. -/
def chainTo (server : String → Page) : String → List String → String → Prop
  | u, [], b => (server u).status = 200 ∧ (server u).body.isSome = true ∧
      nextUrl (server u) = some b
  | u, u2 :: rest, b => (server u).status = 200 ∧ (server u).body.isSome = true ∧
      nextUrl (server u) = some u2 ∧ chainTo server u2 rest b

/-- The GraphQL update response as far as `update_shopify_price` inspects
it (lines 174-203): whether the POST itself raised, the HTTP status, whether
the body has a top-level `errors` key, and the
`data.productSet.userErrors` list (field/message pairs, kept abstract as
strings). -/
structure GraphQLResponse where
  transportException : Bool
  status : Nat
  hasErrors : Bool
  userErrors : List String
deriving DecidableEq

/-- The success/failure classification of `update_shopify_price`
(lines 174-203): an exception anywhere in the `try` returns `False`; a
non-200 status returns `False`; a 200 body with a GraphQL-level `errors`
key returns `False`; a non-empty `userErrors` list returns `False`;
otherwise `True`.  The function never raises — every failure path is a
normal `return False, ...`. -/
def update_shopify_price (resp : GraphQLResponse) : Bool :=
  if resp.transportException then false
  else if resp.status = 200 then
    if resp.hasErrors then false
    else if resp.userErrors.isEmpty then true
    else false
  else false

/-- The push loop of `main` (lines 263-291): for each pending update, in
the Reconciler's output order, call `update_shopify_price` once and append
the update to `success_updates` or `failed_updates`.  Returns
(attempted updates in call order, `success_updates`, `failed_updates`).
Nothing in the loop body can raise (`update_shopify_price` traps its own
exceptions), so no outcome of one item can stop the rest. -/
def runUpdates (remote : PendingUpdate → GraphQLResponse) :
    List PendingUpdate → List PendingUpdate × List PendingUpdate × List PendingUpdate
  | [] => ([], [], [])
  | u :: rest =>
    let ok := update_shopify_price (remote u)
    let r := runUpdates remote rest
    (u :: r.1, if ok then u :: r.2.1 else r.2.1, if ok then r.2.2 else u :: r.2.2)

/-- Outcome of `main` up to the reconciliation step. -/
inductive RunResult where
  | aborted : RunResult
  | reconciled : Option (List PendingUpdate) → RunResult
deriving DecidableEq

/-- The fetch-and-gate part of `main` (lines 218-235): `fetch_eorder_prices`
yields `None` on any fetch error, and `main` returns early when
`not eorder_prices` (so `None` and the empty list alike, lines 222-224),
then returns early when `not shopify_products` (line 230-232), and only
then calls `compare_prices`. -/
def main_run (feedResult : Option (List PriceEntry)) (catalog : List Product) : RunResult :=
  match feedResult with
  | none => RunResult.aborted
  | some feed =>
    if feed.isEmpty then RunResult.aborted
    else if catalog.isEmpty then RunResult.aborted
    else RunResult.reconciled (compare_prices feed catalog)

/-- Fixture: a server whose first catalog page is good and links onward,
but whose second page answers HTTP 500. -/
def partialFetchServer : String → Page := fun url =>
  if url = firstPageUrl "myshop" "2024-01" then
    ⟨200, some [⟨1, "P", [⟨11, some "A1", "95.00", "V", none, none, none⟩]⟩],
      some "<https://myshop/p2>; rel=\"next\""⟩
  else ⟨500, none, none⟩

/-- Fixture: a server whose first catalog page is good and links onward,
whose second page's JSON body has no `products` field, and which also
serves a standalone page with products but no next-link. -/
def missingProductsServer : String → Page := fun url =>
  if url = firstPageUrl "myshop" "2024-01" then
    ⟨200, some [⟨1, "P", [⟨11, some "A1", "95.00", "V", none, none, none⟩]⟩],
      some "<https://myshop/p2>; rel=\"next\""⟩
  else if url = "https://myshop/solo" then
    ⟨200, some [⟨2, "P2", [⟨21, some "B2", "40.00", "V2", none, none, none⟩]⟩], none⟩
  else ⟨200, none, none⟩

/-- Fixture: a server serving a complete two-page catalog, the first page
linking to the second, the second with no next-link. -/
def twoPageServer : String → Page := fun url =>
  if url = firstPageUrl "myshop" "2024-01" then
    ⟨200, some [⟨1, "P1", [⟨11, some "A1", "95.00", "V1", none, none, none⟩]⟩],
      some "<https://myshop/p2>; rel=\"next\""⟩
  else if url = "https://myshop/p2" then
    ⟨200, some [⟨2, "P2", [⟨21, some "B2", "40.00", "V2", none, none, none⟩]⟩], none⟩
  else ⟨404, none, none⟩

/-- Fixture: a catalog variant with sku `A1` priced `95.00`, and its
product. -/
def variantA : Variant := ⟨11, some "A1", "95.00", "V", none, none, none⟩

/-- Fixture: the product holding `variantA`. -/
def productA : Product := ⟨1, "P", [variantA]⟩

/-- Every update emitted for one variant records that variant's parsed
price, the looked-up feed price, and a delta above the tolerance. -/
theorem processVariant_mem {m : List (String × ℚ)} {p : Product} {v : Variant}
    {l : List PendingUpdate} {u : PendingUpdate}
    (h : processVariant m p v = some l) (hu : u ∈ l) :
    ∃ cp np, parsePrice v.price = some cp ∧
      List.lookup (v.sku.getD "") m = some np ∧
      u = mkUpdate p v cp np ∧ |cp - np| > 1 / 100 := by
  unfold processVariant at h
  split at h
  · simp only [Option.some.injEq] at h
    subst h; cases hu
  · rename_i np hlk
    split at h
    · cases h
    · rename_i cp hcp
      split at h
      · rename_i hgt
        simp only [Option.some.injEq] at h
        subst h
        simp only [List.mem_singleton] at hu
        subst hu
        exact ⟨cp, np, hcp, hlk, rfl, hgt⟩
      · simp only [Option.some.injEq] at h
        subst h; cases hu

/-- A variant whose exact (untrimmed, missing-defaulted) sku is not a key
of the price map contributes nothing and raises nothing. -/
theorem processVariant_skip {m : List (String × ℚ)} {p : Product} {v : Variant}
    (hlk : List.lookup (v.sku.getD "") m = none) :
    processVariant m p v = some [] := by
  unfold processVariant
  rw [hlk]

/-- A matched variant whose price does not parse makes the variant loop
body raise. -/
theorem processVariant_raise {m : List (String × ℚ)} {p : Product} {v : Variant}
    (hlk : (List.lookup (v.sku.getD "") m).isSome = true)
    (hcp : parsePrice v.price = none) :
    processVariant m p v = none := by
  obtain ⟨np, hnp⟩ := Option.isSome_iff_exists.mp hlk
  unfold processVariant
  rw [hnp, hcp]

/-- A matched variant whose prices are in hand yields exactly one update
when the delta beats the tolerance and none otherwise. -/
theorem processVariant_matched {m : List (String × ℚ)} {p : Product} {v : Variant}
    {np cp : ℚ}
    (hlk : List.lookup (v.sku.getD "") m = some np)
    (hcp : parsePrice v.price = some cp) :
    processVariant m p v =
      some (if |cp - np| > 1 / 100 then [mkUpdate p v cp np] else []) := by
  simp only [processVariant, hlk, hcp]
  split <;> rfl

/-- Every update in a variant-loop result comes from some variant of the
list. -/
theorem diffVariants_mem {m : List (String × ℚ)} {p : Product}
    {vs : List Variant} {l : List PendingUpdate} {u : PendingUpdate}
    (h : diffVariants m p vs = some l) (hu : u ∈ l) :
    ∃ v, v ∈ vs ∧ ∃ lv, processVariant m p v = some lv ∧ u ∈ lv := by
  induction vs generalizing l with
  | nil =>
    simp only [diffVariants, Option.some.injEq] at h
    subst h; cases hu
  | cons v vs ih =>
    simp only [diffVariants] at h
    rcases Option.bind_eq_some.mp h with ⟨us, hus, h2⟩
    rcases Option.map_eq_some'.mp h2 with ⟨rest, hrest, rfl⟩
    rcases List.mem_append.mp hu with hin | hin
    · exact ⟨v, List.mem_cons_self v vs, us, hus, hin⟩
    · rcases ih hrest hin with ⟨v2, hv2, lv, hplv, hulv⟩
      exact ⟨v2, List.mem_cons_of_mem _ hv2, lv, hplv, hulv⟩

/-- Conversely, when the variant loop completes, the contribution of every
variant of the list is contained in the result. -/
theorem diffVariants_sub {m : List (String × ℚ)} {p : Product}
    {vs : List Variant} {l : List PendingUpdate} {v : Variant}
    (h : diffVariants m p vs = some l) (hv : v ∈ vs) :
    ∃ lv, processVariant m p v = some lv ∧ ∀ u ∈ lv, u ∈ l := by
  induction vs generalizing l with
  | nil => cases hv
  | cons v2 vs ih =>
    simp only [diffVariants] at h
    rcases Option.bind_eq_some.mp h with ⟨us, hus, h2⟩
    rcases Option.map_eq_some'.mp h2 with ⟨rest, hrest, rfl⟩
    rcases List.mem_cons.mp hv with rfl | hv2
    · exact ⟨us, hus, fun u hu => List.mem_append.mpr (Or.inl hu)⟩
    · rcases ih hrest hv2 with ⟨lv, hlv, hsub⟩
      exact ⟨lv, hlv, fun u hu => List.mem_append.mpr (Or.inr (hsub u hu))⟩

/-- If any variant of the list makes the loop body raise, the whole
variant loop raises. -/
theorem diffVariants_raise {m : List (String × ℚ)} {p : Product}
    {vs : List Variant} {v : Variant}
    (hv : v ∈ vs) (h : processVariant m p v = none) :
    diffVariants m p vs = none := by
  induction vs with
  | nil => cases hv
  | cons v2 vs ih =>
    rcases List.mem_cons.mp hv with rfl | hv2
    · simp only [diffVariants, h, Option.none_bind]
    · simp only [diffVariants]
      rcases hpv : processVariant m p v2 with _ | us
      · rfl
      · rw [ih hv2]; rfl

/-- Every update in a product-loop result comes from some product's variant
loop. -/
theorem diffProducts_mem {m : List (String × ℚ)}
    {ps : List Product} {l : List PendingUpdate} {u : PendingUpdate}
    (h : diffProducts m ps = some l) (hu : u ∈ l) :
    ∃ p, p ∈ ps ∧ ∃ lp, diffVariants m p p.variants = some lp ∧ u ∈ lp := by
  induction ps generalizing l with
  | nil =>
    simp only [diffProducts, Option.some.injEq] at h
    subst h; cases hu
  | cons p ps ih =>
    simp only [diffProducts] at h
    rcases Option.bind_eq_some.mp h with ⟨us, hus, h2⟩
    rcases Option.map_eq_some'.mp h2 with ⟨rest, hrest, rfl⟩
    rcases List.mem_append.mp hu with hin | hin
    · exact ⟨p, List.mem_cons_self p ps, us, hus, hin⟩
    · rcases ih hrest hin with ⟨p2, hp2, lp, hplp, hulp⟩
      exact ⟨p2, List.mem_cons_of_mem _ hp2, lp, hplp, hulp⟩

/-- When the product loop completes, the contribution of every product of
the list is contained in the result. -/
theorem diffProducts_sub {m : List (String × ℚ)}
    {ps : List Product} {l : List PendingUpdate} {p : Product}
    (h : diffProducts m ps = some l) (hp : p ∈ ps) :
    ∃ lp, diffVariants m p p.variants = some lp ∧ ∀ u ∈ lp, u ∈ l := by
  induction ps generalizing l with
  | nil => cases hp
  | cons p2 ps ih =>
    simp only [diffProducts] at h
    rcases Option.bind_eq_some.mp h with ⟨us, hus, h2⟩
    rcases Option.map_eq_some'.mp h2 with ⟨rest, hrest, rfl⟩
    rcases List.mem_cons.mp hp with rfl | hp2
    · exact ⟨us, hus, fun u hu => List.mem_append.mpr (Or.inl hu)⟩
    · rcases ih hrest hp2 with ⟨lp, hlp, hsub⟩
      exact ⟨lp, hlp, fun u hu => List.mem_append.mpr (Or.inr (hsub u hu))⟩

/-- If any product's variant loop raises, the whole product loop raises. -/
theorem diffProducts_raise {m : List (String × ℚ)}
    {ps : List Product} {p : Product}
    (hp : p ∈ ps) (h : diffVariants m p p.variants = none) :
    diffProducts m ps = none := by
  induction ps with
  | nil => cases hp
  | cons p2 ps ih =>
    rcases List.mem_cons.mp hp with rfl | hp2
    · simp only [diffProducts, h, Option.none_bind]
    · simp only [diffProducts]
      rcases hpv : diffVariants m p2 p2.variants with _ | us
      · rfl
      · rw [ih hp2]; rfl

/-- Every update in a completed `compare_prices` result comes from a
catalog variant whose sku was found in the feed map, records that
variant's parsed price and the feed price, and has a delta above the
tolerance. -/
theorem compare_prices_mem {feed : List PriceEntry} {catalog : List Product}
    {res : List PendingUpdate} {u : PendingUpdate}
    (h : compare_prices feed catalog = some res) (hu : u ∈ res) :
    ∃ m pd v cp np, eorder_price_map feed = some m ∧ pd ∈ catalog ∧
      v ∈ pd.variants ∧ parsePrice v.price = some cp ∧
      List.lookup (v.sku.getD "") m = some np ∧
      u = mkUpdate pd v cp np ∧ |cp - np| > 1 / 100 := by
  rcases Option.bind_eq_some.mp h with ⟨m, hm, hd⟩
  rcases diffProducts_mem hd hu with ⟨pd, hpd, lp, hlp, hulp⟩
  rcases diffVariants_mem hlp hulp with ⟨v, hv, lv, hplv, hulv⟩
  rcases processVariant_mem hplv hulv with ⟨cp, np, hcp, hlk, hequ, hgt⟩
  exact ⟨m, pd, v, cp, np, hm, hpd, hv, hcp, hlk, hequ, hgt⟩

/-- Building the price map over an appended feed processes the first part,
then the second over the resulting accumulator, exactly as the Python
comprehension iterates left to right. -/
theorem buildPriceMapAux_append {l1 l2 : List PriceEntry} {acc : List (String × ℚ)} :
    buildPriceMapAux acc (l1 ++ l2) =
      (buildPriceMapAux acc l1).bind fun m => buildPriceMapAux m l2 := by
  induction l1 generalizing acc with
  | nil => rfl
  | cons e l1 ih =>
    simp only [List.cons_append, buildPriceMapAux]
    cases hq : parsePrice e.price with
    | none => rfl
    | some q =>
      simp only [Option.some_bind]
      exact ih

/-- Entries whose sku never occurs in the processed part leave that sku's
lookup unchanged. -/
theorem buildPriceMapAux_lookup_not_mem {l : List PriceEntry}
    {acc m : List (String × ℚ)} {s : String}
    (h : buildPriceMapAux acc l = some m) (hs : ∀ e ∈ l, e.sku ≠ s) :
    List.lookup s m = List.lookup s acc := by
  induction l generalizing acc with
  | nil =>
    simp only [buildPriceMapAux, Option.some.injEq] at h
    subst h; rfl
  | cons e l ih =>
    simp only [buildPriceMapAux] at h
    rcases Option.bind_eq_some.mp h with ⟨q, hq, h2⟩
    rw [ih h2 fun e2 he2 => hs e2 (List.mem_cons_of_mem _ he2)]
    have hne : (s == e.sku) = false :=
      beq_eq_false_iff_ne.mpr (Ne.symm (hs e (List.mem_cons_self e l)))
    simp [List.lookup, hne]

/-- A successful lookup in the built map either hits a sku of the
processed entries or was already resolvable in the accumulator. -/
theorem buildPriceMapAux_lookup_mem {l : List PriceEntry}
    {acc m : List (String × ℚ)} {s : String} {q : ℚ}
    (h : buildPriceMapAux acc l = some m) (hlk : List.lookup s m = some q) :
    (∃ e ∈ l, e.sku = s) ∨ List.lookup s acc = some q := by
  induction l generalizing acc with
  | nil =>
    simp only [buildPriceMapAux, Option.some.injEq] at h
    subst h; exact Or.inr hlk
  | cons e l ih =>
    simp only [buildPriceMapAux] at h
    rcases Option.bind_eq_some.mp h with ⟨qe, hqe, h2⟩
    rcases ih h2 with ⟨e2, he2, hs⟩ | hacc
    · exact Or.inl ⟨e2, List.mem_cons_of_mem _ he2, hs⟩
    · by_cases hbe : s = e.sku
      · exact Or.inl ⟨e, List.mem_cons_self e l, hbe.symm⟩
      · right
        have hne : (s == e.sku) = false := beq_eq_false_iff_ne.mpr hbe
        simpa [List.lookup, hne] using hacc

/-- Walking a complete chain of good pages returns exactly the
concatenation of their products, for any fuel at least the chain length. -/
theorem fetchLoop_goodChain {server : String → Page} {u : String}
    {l : List String} {fuel : Nat}
    (hchain : goodChain server (u :: l)) (hfuel : l.length + 1 ≤ fuel) :
    fetchLoop server fuel (some u) = some (pagesProducts server (u :: l)) := by
  induction l generalizing u fuel with
  | nil =>
    obtain ⟨hst, hbody, hnext⟩ := hchain
    obtain ⟨prods, hprods⟩ := Option.isSome_iff_exists.mp hbody
    rcases fuel with _ | f
    · omega
    · simp only [fetchLoop, hst, hprods, hnext, ne_eq, not_true_eq_false, if_false,
        pagesProducts, List.flatMap_cons, List.flatMap_nil, Option.getD_some]
      rfl
  | cons u2 l ih =>
    obtain ⟨hst, hbody, hnext, hrest⟩ := hchain
    obtain ⟨prods, hprods⟩ := Option.isSome_iff_exists.mp hbody
    rcases fuel with _ | f
    · simp only [List.length_cons] at hfuel; omega
    · have hf : l.length + 1 ≤ f := by
        simp only [List.length_cons] at hfuel; omega
      simp only [fetchLoop, hst, hprods, hnext, ne_eq, not_true_eq_false, if_false]
      rw [ih hrest hf]
      simp only [Option.map_some', Option.some.injEq, pagesProducts,
        List.flatMap_cons, Option.getD_some, hprods]

/-- Walking a chain of good pages whose last link points at a page that
either answers non-200 or has no usable `products` list returns exactly
the products accumulated over the good pages: the loop breaks at the bad
page, contributing nothing for it, and the result is an ordinary product
list. -/
theorem fetchLoop_chainTo_stop {server : String → Page} {u b : String}
    {l : List String} {fuel : Nat}
    (hchain : chainTo server u l b) (hfuel : l.length + 2 ≤ fuel)
    (hstop : (server b).status ≠ 200 ∨ (server b).body = none) :
    fetchLoop server fuel (some u) = some (pagesProducts server (u :: l)) := by
  induction l generalizing u fuel with
  | nil =>
    obtain ⟨hst, hbody, hnext⟩ := hchain
    obtain ⟨prods, hprods⟩ := Option.isSome_iff_exists.mp hbody
    rcases fuel with _ | f
    · omega
    rcases f with _ | g
    · omega
    have hb : fetchLoop server (g + 1) (some b) = some [] := by
      rcases hstop with hbad | hnone
      · simp only [fetchLoop, ne_eq, hbad, not_false_eq_true, if_true]
      · by_cases hbs : (server b).status = 200
        · simp only [fetchLoop, hbs, ne_eq, not_true_eq_false, if_false, hnone]
        · simp only [fetchLoop, ne_eq, hbs, not_false_eq_true, if_true]
    simp only [fetchLoop, hst, hprods, hnext, ne_eq, not_true_eq_false, if_false, hb,
      Option.map_some', Option.some.injEq, pagesProducts, List.flatMap_cons,
      List.flatMap_nil, Option.getD_some]
  | cons u2 l ih =>
    obtain ⟨hst, hbody, hnext, hrest⟩ := hchain
    obtain ⟨prods, hprods⟩ := Option.isSome_iff_exists.mp hbody
    rcases fuel with _ | f
    · simp only [List.length_cons] at hfuel; omega
    have hf : l.length + 2 ≤ f := by
      simp only [List.length_cons] at hfuel; omega
    simp only [fetchLoop, hst, hprods, hnext, ne_eq, not_true_eq_false, if_false]
    rw [ih hrest hf]
    simp only [Option.map_some', Option.some.injEq, pagesProducts,
      List.flatMap_cons, Option.getD_some, hprods]

/-- C1: for every feed and catalog, and every catalog variant whose sku is
present in the feed-derived price lookup (with both prices parsed), the
completed `compare_prices` result contains the PendingUpdate for that
variant if and only if `abs(current_price - new_price) > 0.01`; the
witness checks the boundaries: a delta of exactly 0.01 yields no update
and a delta of 0.0100001 yields one. -/
theorem compare_prices_update_iff {feed : List PriceEntry} {catalog : List Product}
    {m : List (String × ℚ)} {res : List PendingUpdate}
    {pd : Product} {v : Variant} {np cp : ℚ}
    (hm : eorder_price_map feed = some m)
    (hres : compare_prices feed catalog = some res)
    (hpd : pd ∈ catalog) (hv : v ∈ pd.variants)
    (hlk : List.lookup (v.sku.getD "") m = some np)
    (hcp : parsePrice v.price = some cp) :
    mkUpdate pd v cp np ∈ res ↔ |cp - np| > 1 / 100 := by
  constructor
  · intro hmem
    rcases compare_prices_mem hres hmem with
      ⟨m2, pd2, v2, cp2, np2, _, _, _, _, _, hequ, hgt⟩
    have h1 : cp = cp2 := congrArg PendingUpdate.current_price hequ
    have h2 : np = np2 := congrArg PendingUpdate.new_price hequ
    rw [h1, h2]
    exact hgt
  · intro hgt
    rcases Option.bind_eq_some.mp hres with ⟨m2, hm2, hd⟩
    have hmm : m2 = m := Option.some_injective _ (hm2.symm.trans hm)
    subst hmm
    rcases diffProducts_sub hd hpd with ⟨lp, hlp, hsubp⟩
    rcases diffVariants_sub hlp hv with ⟨lv, hlv, hsubv⟩
    have heq := @processVariant_matched _ pd _ _ _ hlk hcp
    rw [if_pos hgt] at heq
    have h3 : lv = [mkUpdate pd v cp np] :=
      Option.some_injective _ (hlv.symm.trans heq)
    exact hsubp _ (hsubv _ (by rw [h3]; exact List.mem_singleton_self _))

/-- C1 witness: with feed price `95.01` against catalog price `95.00`
(delta exactly 0.01) the update for `variantA` is not emitted; with feed
price `95.0100001` (delta 0.0100001) it is. -/
theorem compare_prices_update_iff_witness :
    mkUpdate productA variantA 95 (9501 / 100) ∉ ([] : List PendingUpdate) ∧
    mkUpdate productA variantA 95 (950100001 / 10000000) ∈
      [mkUpdate productA variantA 95 (950100001 / 10000000)] := by
  constructor
  · intro hmem
    exact absurd
      ((@compare_prices_update_iff [⟨"A1", "95.01"⟩] [productA]
          [("A1", 9501 / 100)] [] productA variantA (9501 / 100) 95
          (by decide) (by decide) (by decide) (by decide) (by decide) (by decide)).mp hmem)
      (by decide)
  · exact (@compare_prices_update_iff [⟨"A1", "95.0100001"⟩] [productA]
      [("A1", 950100001 / 10000000)]
      [mkUpdate productA variantA 95 (950100001 / 10000000)]
      productA variantA (950100001 / 10000000) 95
      (by decide) (by decide) (by decide) (by decide) (by decide) (by decide)).mpr
      (by decide)

/-- C3 counterexample: with feed prices for `A1` and `B2` and a catalog in
which the `A1` variant's price is the unparseable string `abc`,
`compare_prices` raises (returns no update list at all) instead of
skipping `A1` and returning the pending `B2` update; the second conjunct
shows that without the bad variant the `B2` update would be returned. -/
theorem unparseable_price_fatal_counterexample :
    compare_prices [⟨"A1", "100.00"⟩, ⟨"B2", "50.00"⟩]
        [⟨1, "P", [⟨11, some "A1", "abc", "V1", none, none, none⟩,
          ⟨12, some "B2", "40.00", "V2", none, none, none⟩]⟩] = none ∧
    compare_prices [⟨"A1", "100.00"⟩, ⟨"B2", "50.00"⟩]
        [⟨1, "P", [⟨12, some "B2", "40.00", "V2", none, none, none⟩]⟩] =
      some [⟨1, 12, "P", "V2", 40, 50, "B2", "", "", ""⟩] :=
  ⟨by decide, by decide⟩

/-- C3 (amended): a catalog variant whose sku is matched by the feed but
whose price does not parse as a decimal makes `compare_prices` raise
(`float` raises `ValueError` and there is no try/except in the function),
so no updates at all are returned — the variant is NOT skipped with a
warning. -/
theorem compare_prices_unparseable_raises {feed : List PriceEntry}
    {catalog : List Product} {m : List (String × ℚ)} {pd : Product} {v : Variant}
    (hm : eorder_price_map feed = some m)
    (hpd : pd ∈ catalog) (hv : v ∈ pd.variants)
    (hlk : (List.lookup (v.sku.getD "") m).isSome = true)
    (hcp : parsePrice v.price = none) :
    compare_prices feed catalog = none := by
  unfold compare_prices
  rw [hm, Option.some_bind]
  exact diffProducts_raise hpd (diffVariants_raise hv (processVariant_raise hlk hcp))

/-- C3 witness: the amended statement at the counterexample's input. -/
theorem compare_prices_unparseable_raises_witness :
    compare_prices [⟨"A1", "100.00"⟩, ⟨"B2", "50.00"⟩]
        [⟨1, "P", [⟨11, some "A1", "abc", "V1", none, none, none⟩,
          ⟨12, some "B2", "40.00", "V2", none, none, none⟩]⟩] = none :=
  @compare_prices_unparseable_raises
    [⟨"A1", "100.00"⟩, ⟨"B2", "50.00"⟩]
    [⟨1, "P", [⟨11, some "A1", "abc", "V1", none, none, none⟩,
      ⟨12, some "B2", "40.00", "V2", none, none, none⟩]⟩]
    [("B2", 50), ("A1", 100)]
    ⟨1, "P", [⟨11, some "A1", "abc", "V1", none, none, none⟩,
      ⟨12, some "B2", "40.00", "V2", none, none, none⟩]⟩
    ⟨11, some "A1", "abc", "V1", none, none, none⟩
    (by decide) (by decide) (by decide) (by decide) (by decide)

/-- C5 counterexample: a catalog variant whose sku `" A1"` differs from the
feed sku `"A1"` only by leading whitespace is NOT matched — the diff is
empty, although the 5.00 delta would have produced an update had the sku
been trimmed (second conjunct). -/
theorem sku_whitespace_counterexample :
    compare_prices [⟨"A1", "100.00"⟩]
        [⟨1, "P", [⟨11, some " A1", "95.00", "V", none, none, none⟩]⟩] = some [] ∧
    compare_prices [⟨"A1", "100.00"⟩] [productA] =
      some [⟨1, 11, "P", "V", 95, 100, "A1", "", "", ""⟩] :=
  ⟨by decide, by decide⟩

/-- C5 (amended): `compare_prices` looks a variant's sku up exactly as
stored (`variant.get('sku', '')` — only a missing sku is defaulted to the
empty string, and no whitespace is trimmed); a variant whose exact sku is
not a key of the feed lookup is skipped, even when it differs from a feed
sku only by surrounding whitespace. -/
theorem processVariant_untrimmed_lookup {m : List (String × ℚ)}
    {p : Product} {v : Variant}
    (hlk : List.lookup (v.sku.getD "") m = none) :
    processVariant m p v = some [] :=
  processVariant_skip hlk

/-- C5 witness: the untrimmed sku `" A1"` misses the feed key `"A1"` and
the variant is skipped. -/
theorem processVariant_untrimmed_lookup_witness :
    processVariant [("A1", (100 : ℚ))]
      ⟨1, "P", [⟨11, some " A1", "95.00", "V", none, none, none⟩]⟩
      ⟨11, some " A1", "95.00", "V", none, none, none⟩ = some [] :=
  @processVariant_untrimmed_lookup [("A1", (100 : ℚ))]
    ⟨1, "P", [⟨11, some " A1", "95.00", "V", none, none, none⟩]⟩
    ⟨11, some " A1", "95.00", "V", none, none, none⟩
    (by decide)

/-- C6 counterexample: when the feed itself contains an entry with the
empty sku, a catalog variant with a missing sku IS matched against it
(`variant.get('sku', '')` yields `''`, which is a key of the lookup) and a
PendingUpdate with an empty sku is emitted — the code has no empty-sku
guard. -/
theorem empty_sku_emitted_counterexample :
    compare_prices [⟨"", "10.00"⟩]
        [⟨1, "P", [⟨11, none, "5.00", "V", none, none, none⟩]⟩] =
      some [⟨1, 11, "P", "V", 5, 10, "", "", "", ""⟩] := by decide

/-- C6 (amended): provided no feed entry has an empty sku, no emitted
PendingUpdate has an empty sku — variants with an absent or empty sku are
then skipped because the empty string is not a key of the lookup (not
because of any explicit guard in the code). -/
theorem compare_prices_no_empty_sku {feed : List PriceEntry}
    {catalog : List Product} {res : List PendingUpdate}
    (hfeed : ∀ e ∈ feed, e.sku ≠ "")
    (hres : compare_prices feed catalog = some res) :
    ∀ u ∈ res, u.sku ≠ "" := by
  intro u hu hsku
  rcases compare_prices_mem hres hu with ⟨m, pd, v, cp, np, hm, _, _, _, hlk, hequ, _⟩
  rw [hequ] at hsku
  have hvs : (v.sku.getD "") = "" := hsku
  rw [hvs] at hlk
  rcases buildPriceMapAux_lookup_mem hm hlk with ⟨e, he, hes⟩ | hacc
  · exact hfeed e he hes
  · simp at hacc

/-- C6 witness: with a clean feed, every emitted update carries a
non-empty sku. -/
theorem compare_prices_no_empty_sku_witness :
    (⟨1, 11, "P", "V", 95, 100, "A1", "", "", ""⟩ : PendingUpdate).sku ≠ "" :=
  @compare_prices_no_empty_sku [⟨"A1", "100.00"⟩] [productA]
    [⟨1, 11, "P", "V", 95, 100, "A1", "", "", ""⟩]
    (by decide) (by decide)
    ⟨1, 11, "P", "V", 95, 100, "A1", "", "", ""⟩ (by decide)

/-- C8: the feed lookup resolves duplicate skus last-write-wins: if the
feed is `l1 ++ e :: l2` and no entry after `e` carries `e`'s sku, the
lookup of `e.sku` in the built map is exactly `e`'s parsed price. -/
theorem eorder_price_map_last_write_wins {l1 l2 : List PriceEntry}
    {e : PriceEntry} {m : List (String × ℚ)}
    (hm : eorder_price_map (l1 ++ e :: l2) = some m)
    (hdup : ∀ e2 ∈ l2, e2.sku ≠ e.sku) :
    List.lookup e.sku m = parsePrice e.price := by
  unfold eorder_price_map at hm
  rw [buildPriceMapAux_append] at hm
  rcases Option.bind_eq_some.mp hm with ⟨m1, hm1, h2⟩
  simp only [buildPriceMapAux] at h2
  rcases Option.bind_eq_some.mp h2 with ⟨q, hq, h3⟩
  rw [buildPriceMapAux_lookup_not_mem h3 hdup, hq]
  simp [List.lookup]

/-- C8 witness: the spec's example — feed
`[{sku:"B2",price:"10.00"},{sku:"B2",price:"12.00"}]` resolves
`B2 -> 12.00`. -/
theorem eorder_price_map_last_write_wins_witness :
    List.lookup "B2" [("B2", (12 : ℚ)), ("B2", 10)] = parsePrice "12.00" ∧
    parsePrice "12.00" = some 12 :=
  ⟨@eorder_price_map_last_write_wins [⟨"B2", "10.00"⟩] [] ⟨"B2", "12.00"⟩
      [("B2", 12), ("B2", 10)] (by decide) (by decide),
    by decide⟩

/-- C2 counterexample: with `partialFetchServer` the first page succeeds
and links to a second page that answers HTTP 500; `get_shopify_products`
returns the first page's products as an ordinary list — not a failed
result — and `main` (second conjunct) accepts that partial catalog and
reconciles against it. -/
theorem http_error_partial_counterexample :
    get_shopify_products partialFetchServer 5 "myshop" "2024-01" =
      some [⟨1, "P", [⟨11, some "A1", "95.00", "V", none, none, none⟩]⟩] ∧
    main_run (some [⟨"A1", "100.00"⟩])
        [⟨1, "P", [⟨11, some "A1", "95.00", "V", none, none, none⟩]⟩] =
      RunResult.reconciled (some [⟨1, 11, "P", "V", 95, 100, "A1", "", "", ""⟩]) :=
  ⟨by decide, by decide⟩

/-- C2 (amended): when a page of the catalog fetch answers non-200 the
loop does abort pagination immediately, but it returns the products
accumulated from the earlier pages as an ordinary, successful-looking
list; whenever that partial catalog is non-empty, `main` cannot tell it
from a complete one and proceeds to reconcile against it. -/
theorem get_shopify_products_http_error_truncated {server : String → Page}
    {fuel : Nat} {shop_url api_version : String} {l : List String} {b : String}
    {feed : List PriceEntry}
    (hchain : chainTo server (firstPageUrl shop_url api_version) l b)
    (hbad : (server b).status ≠ 200)
    (hfuel : l.length + 2 ≤ fuel)
    (hfeed : feed ≠ [])
    (hne : pagesProducts server (firstPageUrl shop_url api_version :: l) ≠ []) :
    get_shopify_products server fuel shop_url api_version =
      some (pagesProducts server (firstPageUrl shop_url api_version :: l)) ∧
    main_run (some feed) (pagesProducts server (firstPageUrl shop_url api_version :: l)) =
      RunResult.reconciled
        (compare_prices feed (pagesProducts server (firstPageUrl shop_url api_version :: l))) := by
  refine ⟨fetchLoop_chainTo_stop hchain hfuel (Or.inl hbad), ?_⟩
  simp only [main_run]
  rw [if_neg (by simpa [List.isEmpty_iff] using hfeed),
    if_neg (by simpa [List.isEmpty_iff] using hne)]

/-- C2 witness: the amended statement at the counterexample's server. -/
theorem get_shopify_products_http_error_truncated_witness :
    get_shopify_products partialFetchServer 2 "myshop" "2024-01" =
      some (pagesProducts partialFetchServer [firstPageUrl "myshop" "2024-01"]) ∧
    main_run (some [⟨"A1", "100.00"⟩])
        (pagesProducts partialFetchServer [firstPageUrl "myshop" "2024-01"]) =
      RunResult.reconciled
        (compare_prices [⟨"A1", "100.00"⟩]
          (pagesProducts partialFetchServer [firstPageUrl "myshop" "2024-01"])) :=
  @get_shopify_products_http_error_truncated partialFetchServer 2 "myshop" "2024-01"
    [] "https://myshop/p2" [⟨"A1", "100.00"⟩]
    ⟨by decide, by decide, by decide⟩ (by decide) (by decide) (by decide) (by decide)

/-- C4: a page whose JSON body has no `products` field contributes no
products and does not make the fetch fail: the loop breaks there and
returns the products accumulated so far as an ordinary list (first
conjunct); and a 200 page with products but no `rel="next"` link ends the
fetch with exactly the products seen (second conjunct) — the loop never
runs on after either stopping condition. -/
theorem get_shopify_products_missing_products_tolerated {server : String → Page}
    {fuel : Nat} {shop_url api_version : String} {l : List String} {b : String}
    {u2 : String} {f : Nat} {prods : List Product}
    (hchain : chainTo server (firstPageUrl shop_url api_version) l b)
    (_hok : (server b).status = 200)
    (hnone : (server b).body = none)
    (hfuel : l.length + 2 ≤ fuel)
    (h1 : (server u2).status = 200)
    (h2 : (server u2).body = some prods)
    (h3 : nextUrl (server u2) = none)
    (h4 : 1 ≤ f) :
    get_shopify_products server fuel shop_url api_version =
      some (pagesProducts server (firstPageUrl shop_url api_version :: l)) ∧
    fetchLoop server f (some u2) = some prods := by
  refine ⟨fetchLoop_chainTo_stop hchain hfuel (Or.inr hnone), ?_⟩
  rcases f with _ | g
  · omega
  · simp only [fetchLoop, h1, h2, h3, ne_eq, not_true_eq_false, if_false]
    simp [fetchLoop]

/-- C4 witness: `missingProductsServer`'s second page has no `products`
field; the fetch returns the first page's products and stops, and a
no-next-link page would end the fetch likewise. -/
theorem get_shopify_products_missing_products_tolerated_witness :
    get_shopify_products missingProductsServer 2 "myshop" "2024-01" =
      some (pagesProducts missingProductsServer [firstPageUrl "myshop" "2024-01"]) ∧
    fetchLoop missingProductsServer 1 (some "https://myshop/solo") =
      some [⟨2, "P2", [⟨21, some "B2", "40.00", "V2", none, none, none⟩]⟩] :=
  @get_shopify_products_missing_products_tolerated missingProductsServer 2
    "myshop" "2024-01" [] "https://myshop/p2" "https://myshop/solo" 1
    [⟨2, "P2", [⟨21, some "B2", "40.00", "V2", none, none, none⟩]⟩]
    ⟨by decide, by decide, by decide⟩ (by decide) (by decide) (by decide)
    (by decide) (by decide) (by decide) (by decide)

/-- C7: for every finite chain of pages in which every page except the
last advertises a `rel="next"` link and the last advertises none,
`get_shopify_products` terminates (any fuel at least the page count
suffices, and the result ignores everything beyond the last page) and
returns the concatenation of all pages' products in page order. -/
theorem get_shopify_products_pagination_complete {server : String → Page}
    {fuel : Nat} {shop_url api_version : String} {l : List String}
    (hchain : goodChain server (firstPageUrl shop_url api_version :: l))
    (hfuel : l.length + 1 ≤ fuel) :
    get_shopify_products server fuel shop_url api_version =
      some (pagesProducts server (firstPageUrl shop_url api_version :: l)) :=
  fetchLoop_goodChain hchain hfuel

/-- C7 witness: `twoPageServer` serves two pages, the first linking to the
second via its `Link` header with the URL between `<` and `>`; the fetch
returns both pages' products in order with fuel 2. -/
theorem get_shopify_products_pagination_complete_witness :
    get_shopify_products twoPageServer 2 "myshop" "2024-01" =
      some [⟨1, "P1", [⟨11, some "A1", "95.00", "V1", none, none, none⟩]⟩,
        ⟨2, "P2", [⟨21, some "B2", "40.00", "V2", none, none, none⟩]⟩] :=
  (@get_shopify_products_pagination_complete twoPageServer 2 "myshop" "2024-01"
    ["https://myshop/p2"]
    ⟨by decide, by decide, by decide, by decide, by decide, by decide⟩
    (by decide)).trans (by decide)

/-- C9: the push loop attempts every pending update exactly once, in the
Reconciler's output order (the attempt trace equals the input list,
whatever each remote call answers), and partitions the outcomes so that
successes plus failures always total the input count — one item's failure
never prevents later attempts. -/
theorem runUpdates_isolation (remote : PendingUpdate → GraphQLResponse)
    (l : List PendingUpdate) :
    (runUpdates remote l).1 = l ∧
    (runUpdates remote l).2.1.length + (runUpdates remote l).2.2.length = l.length := by
  induction l with
  | nil => exact ⟨rfl, rfl⟩
  | cons u rest ih =>
    rcases ih with ⟨ih1, ih2⟩
    simp only [runUpdates]
    by_cases hok : update_shopify_price (remote u) = true
    · simp only [hok, if_true, List.length_cons, ih1]
      exact ⟨trivial, by omega⟩
    · rw [Bool.not_eq_true] at hok
      simp only [hok, Bool.false_eq_true, if_false, List.length_cons, ih1]
      exact ⟨trivial, by omega⟩

/-- C10: a feed fetch that returns `None` (fetch error) and one that
returns an empty list abort the run identically, and an empty product
list aborts the run as well — reconciliation is never reached on an
empty-but-valid input from either source. -/
theorem main_run_empty_input_aborts :
    (∀ catalog, main_run (some ([] : List PriceEntry)) catalog = RunResult.aborted) ∧
    (∀ catalog, main_run none catalog = RunResult.aborted) ∧
    (∀ feedResult, main_run feedResult ([] : List Product) = RunResult.aborted) := by
  refine ⟨fun catalog => rfl, fun catalog => rfl, fun feedResult => ?_⟩
  cases feedResult with
  | none => rfl
  | some feed =>
    cases feed with
    | nil => rfl
    | cons e fs => rfl
